import Mathlib

/-!
Shallow embedding of the payroll data-management pipeline
(`FullDataManagement.py`, `Interactive_Investigation_Script.py`).

A dataframe is modelled as a `List Record`; nullable numeric cells are
`Option ℚ` (a `none` is pandas `NaN`), nullable text cells are
`Option String`.  Floating-point arithmetic is modelled over `ℚ`:
the claims under study concern null-propagation and bin/guard logic,
not rounding.  Arithmetic over nullable cells propagates `none`, the
way elementwise float arithmetic propagates `NaN`.
-/

namespace Payroll

/-- One row of the dataset, with the columns the scripts read
(`Id, EmployeeName, JobTitle, BasePay, OvertimePay, OtherPay, Benefits,
TotalPay, TotalPayBenefits, Year, Agency, Status, Notes`).  After
`pd.to_numeric(..., errors='coerce')` every numeric cell is a nullable
number, so each is an `Option ℚ` / `Option Int` here. -/
structure Record where
  id : Option Int
  employeeName : Option String
  jobTitle : Option String
  basePay : Option ℚ
  overtimePay : Option ℚ
  otherPay : Option ℚ
  benefits : Option ℚ
  totalPay : Option ℚ
  totalPayBenefits : Option ℚ
  year : Option Int
  agency : Option String
  status : Option String
  notes : Option String
  deriving Repr, DecidableEq

/-- Pandas `Series.fillna(d)`: replace a null cell by `d`; the result is never
null. -/
def fillna (x : Option ℚ) (d : ℚ) : Option ℚ :=
  some (x.getD d)

/-- Elementwise `+` on nullable float columns: `NaN` propagates. -/
def optAdd : Option ℚ → Option ℚ → Option ℚ
  | some a, some b => some (a + b)
  | _, _ => none

/-- Source line `df['TotalCompensation'] = df['BasePay'].fillna(0) +
df['OvertimePay'].fillna(0) + df['OtherPay'].fillna(0)`
(FullDataManagement.py line 43). -/
def totalCompensation (r : Record) : Option ℚ :=
  optAdd (optAdd (fillna r.basePay 0) (fillna r.overtimePay 0)) (fillna r.otherPay 0)

/-- Source lines `df['OvertimePercent'] = np.where((df['BasePay'] > 0) & (df['BasePay'].notna()),
(df['OvertimePay'] / df['BasePay']) * 100, np.nan)`
(FullDataManagement.py lines 46-50).  In pandas `NaN > 0` is `False`, so the
selected branch only ever divides by a non-null positive `BasePay`; a null
`OvertimePay` makes the quotient `NaN`. -/
def overtimePercent (r : Record) : Option ℚ :=
  match r.basePay with
  | some b =>
      if 0 < b then
        match r.overtimePay with
        | some o => some (o / b * 100)
        | none => none
      else none
  | none => none

/-- The four labels of `pd.cut(..., labels=['Low','Medium','High','Very High'])`. -/
inductive SalaryCategory where
  | Low
  | Medium
  | High
  | VeryHigh
  deriving Repr, DecidableEq

/-- Source lines `df['SalaryCategory'] = pd.cut(df['TotalPayBenefits'],
bins=[0, 50000, 100000, 150000, inf], labels=[...])`
(FullDataManagement.py lines 60-64).  `pd.cut` defaults to
`right=True, include_lowest=False`, so the bins are the left-open,
right-closed intervals `(0, 50000]`, `(50000, 100000]`,
`(100000, 150000]`, `(150000, ∞)`; a value outside every bin (here
`v ≤ 0`), like a null input, gets `NaN`. -/
def salaryCategory (t : Option ℚ) : Option SalaryCategory :=
  match t with
  | none => none
  | some v =>
      if 0 < v ∧ v ≤ 50000 then some .Low
      else if 50000 < v ∧ v ≤ 100000 then some .Medium
      else if 100000 < v ∧ v ≤ 150000 then some .High
      else if 150000 < v then some .VeryHigh
      else none

/-- Source line `df['HighOvertimeFlag'] = df['OvertimePercent'] > 20`
(FullDataManagement.py line 67).  A float-series comparison in pandas
yields a plain boolean column; `NaN > 20` is `False`. -/
def highOvertimeFlag (r : Record) : Bool :=
  match overtimePercent r with
  | some p => decide (20 < p)
  | none => false

/-! ### Joining (FullDataManagement.py, `Joining`) -/

/-- Left-pad with `'0'` to width `n`: python `str.zfill(n)` on a string of
digits. -/
def zfill (n : Nat) (s : String) : String :=
  if s.length < n then String.mk (List.replicate (n - s.length) '0') ++ s else s

/-- First-seen-order deduplication with an accumulator of values already
seen: `Series.dropna().unique()` keeps the first occurrence of each
distinct non-null value, in order of first appearance. -/
def uniqAux (seen : List String) : List String → List String
  | [] => []
  | a :: l => if a ∈ seen then uniqAux seen l else a :: uniqAux (a :: seen) l

/-- Source line `unique_agencies = df_employees['Agency'].dropna().unique()`
(FullDataManagement.py line 186): the distinct non-null agency values in
first-seen order. -/
def uniqueAgencies (rows : List Record) : List String :=
  uniqAux [] (rows.filterMap (·.agency))

/-- One row of the agency mapping table (`Agency, AgencyCode, Department`). -/
structure MapRow where
  agency : String
  agencyCode : String
  department : String
  deriving Repr, DecidableEq

/-- Source lines `agency_mapping = pd.DataFrame({'Agency': unique_agencies,
'AgencyCode': [f'AG-\x7bstr(i).zfill(4)\x7d' ...], 'Department': ['General' ...]})`
(FullDataManagement.py lines 193-197).  The write to `agency_code.csv`
and immediate re-read at STEP 3 are modelled as the identity. -/
def agencyMapping (rows : List Record) : List MapRow :=
  (uniqueAgencies rows).enum.map fun p =>
    ⟨p.2, "AG-" ++ zfill 4 (toString p.1), "General"⟩

/-- One output row of the merge: the employee row plus the (nullable)
mapping columns. -/
structure MergedRow where
  left : Record
  agencyCode : Option String
  department : Option String
  deriving Repr, DecidableEq

/-- The merge `pd.merge(df_employees, df_agency_codes, on='Agency', how='left')`
(FullDataManagement.py lines 209-214): each left row is paired with every
mapping row of equal `Agency` key; a left row with no match (in
particular any row whose `Agency` is null, since null keys never match)
is kept once with null mapping columns. -/
def joinRow (r : Record) (mapping : List MapRow) : List MergedRow :=
  match mapping.filter (fun m => r.agency = some m.agency) with
  | [] => [⟨r, none, none⟩]
  | ms => ms.map fun m => ⟨r, some m.agencyCode, some m.department⟩

/-- All rows of the left merge: one block of output rows per input row. -/
def leftJoin (rows : List Record) (mapping : List MapRow) : List MergedRow :=
  rows.flatMap fun r => joinRow r mapping

/-- The whole `Joining` data flow: build the mapping from the input's own
distinct agency values, then left-join the input onto it. -/
def joining (rows : List Record) : List MergedRow :=
  leftJoin rows (agencyMapping rows)

/-- Source line `unmatched_count = merged_df['AgencyCode'].isna().sum()`
(FullDataManagement.py line 224). -/
def unmatchedCount (merged : List MergedRow) : Nat :=
  (merged.filter (fun mr => mr.agencyCode = none)).length

/-! ### Interactive search (Interactive_Investigation_Script.py) -/

/-- Case-insensitive literal substring test on character lists: the
spec-side notion of "contains the keyword as a case-insensitive
substring", used to compare the source's regex-based filter against the
spec's words. -/
def containsCI (hay pat : List Char) : Bool :=
  (hay.map Char.toLower).tails.any fun t => (pat.map Char.toLower).isPrefixOf t

/-- The characters Python's `re` module documents as special:
`. ^ $ * + ? \x7b \x7d [ ] \ | ( )`. -/
def reMetachars : List Char :=
  ['.', '^', '$', '*', '+', '?', '\x7b', '\x7d', '[', ']', '\\', '|', '(', ')']

/-- Whether a character is an `re` metacharacter. -/
def isReMetachar (c : Char) : Bool :=
  c ∈ reMetachars

/-- One atom of a pattern in the modelled regex subset: the `.` wildcard
or a literal character. -/
inductive RegexAtom where
  | dot
  | lit (c : Char)
  deriving Repr, DecidableEq

/-- Parse a pattern string into the modelled regex subset: `.` becomes
the wildcard, a non-metacharacter becomes a literal, and a pattern using
any other metacharacter engages `re` features (alternation, quantifiers,
classes, or an `re.error`) that are outside the model (`none`). -/
def parseSimplePattern : List Char → Option (List RegexAtom)
  | [] => some []
  | c :: cs =>
      if c = '.' then (parseSimplePattern cs).map (RegexAtom.dot :: ·)
      else if isReMetachar c then none
      else (parseSimplePattern cs).map (RegexAtom.lit c :: ·)

/-- Whether one atom matches one character under `re.IGNORECASE`: the
wildcard matches any character except a newline, a literal matches up to
case. -/
def atomMatches (a : RegexAtom) (c : Char) : Bool :=
  match a with
  | .dot => c ≠ '\n'
  | .lit l => l.toLower = c.toLower

/-- Whether the parsed pattern matches some prefix of `s`. -/
def matchesPrefix : List RegexAtom → List Char → Bool
  | [], _ => true
  | _ :: _, [] => false
  | a :: ps, c :: cs => atomMatches a c && matchesPrefix ps cs

/-- Python `re.search` on the modelled subset: the pattern matches at
some position of the string. -/
def reSearch (pat : List RegexAtom) (s : List Char) : Bool :=
  s.tails.any (matchesPrefix pat)

/-- Function `search_by_job_title` (Interactive_Investigation_Script.py
lines 39-53): drop rows with a null `JobTitle`, then keep the rows whose
title matches the keyword,
`df['JobTitle'].str.contains(keyword, case=False, na=False)`.
`str.contains` defaults to `regex=True`, so the keyword is interpreted
as a regular expression searched case-insensitively at any position.
The embedding covers keywords inside the modelled subset (literal
characters and the `.` wildcard); a keyword with any other
metacharacter engages the full `re` engine (or raises `re.error`,
caught at lines 51-53 to return an empty frame) and is outside the
model: the result is `none`, not a modelled row set. -/
def search_by_job_title (df : List Record) (keyword : String) :
    Option (List Record) :=
  (parseSimplePattern keyword.data).map fun pat =>
    (df.filter (fun r => r.jobTitle.isSome)).filter fun r =>
      match r.jobTitle with
      | some t => reSearch pat t.data
      | none => false

/-- The record set the spec's words describe for a search: the rows
whose job title is non-null and contains the keyword as a
case-insensitive literal substring (spec-side definition, to be compared
with `search_by_job_title`). -/
def literalSearch (df : List Record) (keyword : String) : List Record :=
  df.filter fun r =>
    match r.jobTitle with
    | some t => containsCI t.data keyword.data
    | none => false

/-- Function `display_results` (Interactive_Investigation_Script.py lines 55-109),
abstracted to its return value: `False` when there are zero matches (the
function prints "No matches found." and returns before any statistics),
`True` otherwise. -/
def display_results (filtered : List Record) : Bool :=
  if filtered.length = 0 then false else true

/-- Python `str.strip()`: remove leading and trailing whitespace. -/
def strip (s : String) : String :=
  String.mk (((s.data.dropWhile Char.isWhitespace).reverse.dropWhile
    Char.isWhitespace).reverse)

/-- Python `str.lower()`. -/
def lower (s : String) : String :=
  String.mk (s.data.map Char.toLower)

/-- Outcome of one iteration of the `main` loop on one line of input. -/
inductive StepOutcome where
  | exited
  | invalidInput
  | results (found : List Record) (savePromptOffered : Bool)
  deriving Repr, DecidableEq

/-- One iteration of the interactive loop in `main`
(Interactive_Investigation_Script.py lines 137-169): strip the input;
an exit keyword (`quit`/`exit`/`q`, case-insensitive) ends the loop; an
empty input prints a validation message and loops; otherwise search, call
`display_results`, and offer the save prompt exactly when it returned
`True`.  An iteration whose keyword falls outside the modelled regex
subset is itself outside the model (`none`). -/
def mainStep (df : List Record) (input : String) : Option StepOutcome :=
  let keyword := strip input
  if lower keyword = "quit" ∨ lower keyword = "exit" ∨ lower keyword = "q" then
    some .exited
  else if keyword = "" then
    some .invalidInput
  else
    (search_by_job_title df keyword).map fun filtered =>
      .results filtered (display_results filtered)

/-! ### Missing-input-file handling -/

/-- Result of `load_data` (Interactive_Investigation_Script.py lines 4-37):
either the loaded rows, or the process exit code passed to `sys.exit`. -/
inductive LoadOutcome where
  | loaded (rows : List Record)
  | exited (code : Nat)
  deriving Repr, DecidableEq

/-- Function `load_data`, abstracted over whether the file exists (the file's rows
are a parameter): on `FileNotFoundError` it prints an error and calls
`sys.exit(1)`. -/
def load_data (fileExists : Bool) (fileRows : List Record) : LoadOutcome :=
  if fileExists then .loaded fileRows else .exited 1

/-- Observable outcome of the batch `__main__` block. -/
structure BatchRun where
  reportedMissingFile : Bool
  exitCode : Nat
  deriving Repr, DecidableEq

/-- The `__main__` block of FullDataManagement.py (lines 241-273),
abstracted over whether the input file exists: a `FileNotFoundError` is
caught by the `except` at lines 267-269, which prints an error message
and returns to the end of the script, so the process terminates normally
with exit code 0 either way. -/
def fullDataManagementMain (inputFileExists : Bool) : BatchRun :=
  if inputFileExists then ⟨false, 0⟩ else ⟨true, 0⟩

/-! ### Concrete sample rows, used to exercise the definitions -/

/-- A fully populated sample row. -/
def recA : Record :=
  ⟨some 1, some "ALICE A", some "Senior Manager", some 100, some 30, some 5,
   some 10, some 135, some 145, some 2014, some "SF", some "FT", none⟩

/-- A sample row with null `BasePay`, `OtherPay` and `Agency`. -/
def recB : Record :=
  ⟨some 2, some "BOB", some "Clerk", none, some 3, none, none, some 3,
   some 3, some 2014, none, none, none⟩

end Payroll

namespace Payroll

/-! ### Helper lemmas -/

lemma salaryCategory_eq_Low (v : ℚ) :
    salaryCategory (some v) = some SalaryCategory.Low ↔ 0 < v ∧ v ≤ 50000 := by
  constructor
  · intro h
    by_contra hc
    unfold salaryCategory at h
    dsimp only at h
    rw [if_neg hc] at h
    split_ifs at h <;> exact absurd h (by simp)
  · intro hc
    unfold salaryCategory
    dsimp only
    rw [if_pos hc]

lemma salaryCategory_eq_Medium (v : ℚ) :
    salaryCategory (some v) = some SalaryCategory.Medium ↔ 50000 < v ∧ v ≤ 100000 := by
  constructor
  · intro h
    unfold salaryCategory at h
    dsimp only at h
    split_ifs at h <;> first | assumption | exact absurd h (by simp)
  · intro hc
    unfold salaryCategory
    dsimp only
    have h1 : ¬(0 < v ∧ v ≤ 50000) := fun hx => absurd hx.2 (not_le.mpr hc.1)
    rw [if_neg h1, if_pos hc]

lemma salaryCategory_eq_High (v : ℚ) :
    salaryCategory (some v) = some SalaryCategory.High ↔ 100000 < v ∧ v ≤ 150000 := by
  constructor
  · intro h
    unfold salaryCategory at h
    dsimp only at h
    split_ifs at h <;> first | assumption | exact absurd h (by simp)
  · intro hc
    unfold salaryCategory
    dsimp only
    have h1 : ¬(0 < v ∧ v ≤ 50000) := fun hx => absurd hx.2 (by push_neg; linarith [hc.1])
    have h2 : ¬(50000 < v ∧ v ≤ 100000) := fun hx => absurd hx.2 (not_le.mpr hc.1)
    rw [if_neg h1, if_neg h2, if_pos hc]

lemma salaryCategory_eq_VeryHigh (v : ℚ) :
    salaryCategory (some v) = some SalaryCategory.VeryHigh ↔ 150000 < v := by
  constructor
  · intro h
    unfold salaryCategory at h
    dsimp only at h
    split_ifs at h <;> first | assumption | exact absurd h (by simp)
  · intro hc
    unfold salaryCategory
    dsimp only
    have h1 : ¬(0 < v ∧ v ≤ 50000) := fun hx => absurd hx.2 (by push_neg; linarith)
    have h2 : ¬(50000 < v ∧ v ≤ 100000) := fun hx => absurd hx.2 (by push_neg; linarith)
    have h3 : ¬(100000 < v ∧ v ≤ 150000) := fun hx => absurd hx.2 (not_le.mpr hc)
    rw [if_neg h1, if_neg h2, if_neg h3, if_pos hc]

lemma salaryCategory_eq_none (v : ℚ) :
    salaryCategory (some v) = none ↔ v ≤ 0 := by
  constructor
  · intro h
    unfold salaryCategory at h
    dsimp only at h
    split_ifs at h with h1 h2 h3 h4
    by_contra hv
    push_neg at hv
    have hv4 : v ≤ 150000 := not_lt.mp h4
    have hv3 : v ≤ 100000 := by
      by_contra hc; push_neg at hc; exact h3 ⟨hc, hv4⟩
    have hv2 : v ≤ 50000 := by
      by_contra hc; push_neg at hc; exact h2 ⟨hc, hv3⟩
    exact h1 ⟨hv, hv2⟩
  · intro hv
    unfold salaryCategory
    dsimp only
    have h1 : ¬(0 < v ∧ v ≤ 50000) := fun hx => absurd hx.1 (not_lt.mpr hv)
    have h2 : ¬(50000 < v ∧ v ≤ 100000) := fun hx => by linarith [hx.1]
    have h3 : ¬(100000 < v ∧ v ≤ 150000) := fun hx => by linarith [hx.1]
    have h4 : ¬(150000 < v) := by push_neg; linarith
    rw [if_neg h1, if_neg h2, if_neg h3, if_neg h4]

lemma nodup_uniqAux : ∀ (l seen : List String),
    (uniqAux seen l).Nodup ∧ ∀ y ∈ uniqAux seen l, y ∉ seen
  | [], seen => by simp [uniqAux]
  | a :: l, seen => by
    unfold uniqAux
    by_cases ha : a ∈ seen
    · rw [if_pos ha]
      exact nodup_uniqAux l seen
    · rw [if_neg ha]
      obtain ⟨hnd, hni⟩ := nodup_uniqAux l (a :: seen)
      constructor
      · refine List.nodup_cons.mpr ⟨?_, hnd⟩
        intro hmem
        exact (hni a hmem) (List.mem_cons_self a seen)
      · intro y hy
        rcases List.mem_cons.mp hy with rfl | hy'
        · exact ha
        · intro hys
          exact (hni y hy') (List.mem_cons_of_mem a hys)

lemma mem_uniqAux (x : String) : ∀ (l seen : List String),
    x ∈ l → x ∈ uniqAux seen l ∨ x ∈ seen
  | [], _ => by simp
  | a :: l, seen => by
    intro hx
    unfold uniqAux
    by_cases ha : a ∈ seen
    · rw [if_pos ha]
      rcases List.mem_cons.mp hx with rfl | hx'
      · exact Or.inr ha
      · exact mem_uniqAux x l seen hx'
    · rw [if_neg ha]
      rcases List.mem_cons.mp hx with rfl | hx'
      · exact Or.inl (List.mem_cons_self _ _)
      · rcases mem_uniqAux x l (a :: seen) hx' with h | h
        · exact Or.inl (List.mem_cons_of_mem a h)
        · rcases List.mem_cons.mp h with rfl | h'
          · exact Or.inl (List.mem_cons_self _ _)
          · exact Or.inr h'

lemma agencyMapping_keys (rows : List Record) :
    (agencyMapping rows).map (·.agency) = uniqueAgencies rows := by
  unfold agencyMapping
  rw [List.map_map]
  exact List.enum_map_snd _

lemma filter_key_len_le_one (k : Option String) :
    ∀ mapping : List MapRow, ((mapping.map (·.agency)).Nodup) →
      (mapping.filter (fun m => k = some m.agency)).length ≤ 1
  | [], _ => by simp
  | m :: ms, h => by
    rw [List.map_cons, List.nodup_cons] at h
    obtain ⟨hm, hms⟩ := h
    by_cases hk : k = some m.agency
    · rw [List.filter_cons_of_pos (by simpa using hk)]
      have hnil : ms.filter (fun m' => k = some m'.agency) = [] := by
        rw [List.filter_eq_nil_iff]
        intro m' hm'
        simp only [decide_eq_true_eq]
        intro hk'
        apply hm
        rw [List.mem_map]
        refine ⟨m', hm', ?_⟩
        have heq : some m.agency = some m'.agency := hk.symm.trans hk'
        injection heq with h'
        exact h'.symm
      rw [hnil]
      simp
    · rw [List.filter_cons_of_neg (by simpa using hk)]
      exact filter_key_len_le_one k ms hms

lemma joinRow_length (r : Record) (mapping : List MapRow)
    (h : (mapping.map (·.agency)).Nodup) :
    (joinRow r mapping).length = 1 := by
  unfold joinRow
  rcases hf : mapping.filter (fun m => r.agency = some m.agency) with - | ⟨m, ms'⟩
  · rw [hf]
    rfl
  · have hle := filter_key_len_le_one r.agency mapping h
    rw [hf] at hle
    have hnil : ms' = [] := by
      rw [List.length_cons] at hle
      exact List.length_eq_zero.mp (by omega)
    rw [hnil] at hf
    rw [hf]
    rfl

lemma leftJoin_length (mapping : List MapRow)
    (h : (mapping.map (·.agency)).Nodup) :
    ∀ rows : List Record, (leftJoin rows mapping).length = rows.length
  | [] => rfl
  | r :: rs => by
    have h1 := joinRow_length r mapping h
    have h2 := leftJoin_length mapping h rs
    unfold leftJoin
    rw [List.flatMap_cons]
    rw [List.length_append]
    unfold leftJoin at h2
    rw [h1, h2, List.length_cons]
    omega

lemma exists_mapRow (rows : List Record) (a : String)
    (ha : a ∈ uniqueAgencies rows) :
    ∃ m ∈ agencyMapping rows, m.agency = a := by
  have hmem : a ∈ (agencyMapping rows).map (·.agency) := by
    rw [agencyMapping_keys]
    exact ha
  rcases List.mem_map.mp hmem with ⟨m, hm, hma⟩
  exact ⟨m, hm, hma⟩

/-! ### Claim theorems: enrichment columns -/

/-- C1 (counterexample): the claim places a total-pay-with-benefits of
exactly 50000 in the "Medium" bin, but `pd.cut` with its default
right-closed bins `(0, 50000], (50000, 100000], ...` assigns exactly
50000 to "Low". -/
theorem salaryCategory_at_50000 :
    salaryCategory (some (50000 : ℚ)) = some SalaryCategory.Low ∧
      salaryCategory (some (50000 : ℚ)) ≠ some SalaryCategory.Medium := by
  constructor
  · exact (salaryCategory_eq_Low 50000).mpr (by norm_num)
  · intro h
    exact absurd ((salaryCategory_eq_Medium 50000).mp h).1 (by norm_num)

/-- C1 (amended): the derived salary category is one of
{Low, Medium, High, Very High, null}, assigned from
total-pay-with-benefits by the fixed left-open right-closed bins
`(0, 50000], (50000, 100000], (100000, 150000], (150000, ∞)`; exactly
50000 falls in "Low" (not "Medium"), and exactly 0 (like any value ≤ 0,
or a null input) falls outside all bins and gets a null category. -/
theorem salaryCategory_bins (t : Option ℚ) :
    (salaryCategory t = none ↔ t = none ∨ ∃ v : ℚ, t = some v ∧ v ≤ 0) ∧
    (∀ v : ℚ, t = some v →
      ((salaryCategory t = some SalaryCategory.Low ↔ 0 < v ∧ v ≤ 50000) ∧
       (salaryCategory t = some SalaryCategory.Medium ↔ 50000 < v ∧ v ≤ 100000) ∧
       (salaryCategory t = some SalaryCategory.High ↔ 100000 < v ∧ v ≤ 150000) ∧
       (salaryCategory t = some SalaryCategory.VeryHigh ↔ 150000 < v))) := by
  cases t with
  | none =>
    constructor
    · simp [salaryCategory]
    · intro v hv
      exact Option.noConfusion hv
  | some w =>
    constructor
    · rw [salaryCategory_eq_none]
      constructor
      · intro h
        exact Or.inr ⟨w, rfl, h⟩
      · rintro (h | ⟨v, hv, hv0⟩)
        · exact Option.noConfusion h
        · injection hv with hv'
          rw [hv']
          exact hv0
    · intro v hv
      injection hv with hv'
      subst hv'
      exact ⟨salaryCategory_eq_Low w, salaryCategory_eq_Medium w,
             salaryCategory_eq_High w, salaryCategory_eq_VeryHigh w⟩

/-- C1 (witness): the amended bin characterization evaluated at 75000,
which lands in "Medium". -/
theorem salaryCategory_bins_witness :
    salaryCategory (some (75000 : ℚ)) = some SalaryCategory.Medium :=
  ((salaryCategory_bins (some 75000)).2 75000 rfl).2.1.mpr (by norm_num)

/-- C4: the overtime percentage is null when base pay is null or ≤ 0,
and equals overtime / base × 100 (null-propagating in overtime) when
base pay is strictly positive. -/
theorem overtimePercent_spec (r : Record) :
    ((r.basePay = none ∨ ∃ b : ℚ, r.basePay = some b ∧ b ≤ 0) →
      overtimePercent r = none) ∧
    (∀ b : ℚ, r.basePay = some b → 0 < b →
      overtimePercent r = Option.map (fun o => o / b * 100) r.overtimePay) := by
  constructor
  · rintro (h | ⟨b, hb, hb0⟩)
    · unfold overtimePercent
      rw [h]
    · unfold overtimePercent
      rw [hb]
      dsimp only
      rw [if_neg (not_lt.mpr hb0)]
  · intro b hb hb0
    unfold overtimePercent
    rw [hb]
    dsimp only
    rw [if_pos hb0]
    cases r.overtimePay <;> rfl

/-- C4 (witness): a row with null base pay gets a null overtime
percentage. -/
theorem overtimePercent_spec_witness : overtimePercent recB = none :=
  (overtimePercent_spec recB).1 (Or.inl rfl)

/-- C5: total compensation equals base pay + overtime pay + other pay
with every null input treated as 0, and is never null. -/
theorem totalCompensation_spec (r : Record) :
    totalCompensation r
        = some (r.basePay.getD 0 + r.overtimePay.getD 0 + r.otherPay.getD 0) ∧
    (totalCompensation r).isSome = true := by
  refine ⟨?_, ?_⟩ <;> simp [totalCompensation, optAdd, fillna]

/-- C10: the high-overtime flag is a plain boolean; it is `true` exactly
when the overtime percentage is non-null and strictly greater than 20,
and it is `false` whenever the overtime percentage is null. -/
theorem highOvertimeFlag_spec (r : Record) :
    (highOvertimeFlag r = true ↔
      ∃ p : ℚ, overtimePercent r = some p ∧ 20 < p) ∧
    (overtimePercent r = none → highOvertimeFlag r = false) := by
  constructor
  · cases h : overtimePercent r with
    | none => simp [highOvertimeFlag, h]
    | some p => simp [highOvertimeFlag, h]
  · intro h
    simp [highOvertimeFlag, h]

/-- C10 (witness): a row with null base pay (hence null overtime
percentage) gets flag `false`, not null. -/
theorem highOvertimeFlag_spec_witness : highOvertimeFlag recB = false :=
  (highOvertimeFlag_spec recB).2 rfl

/-! ### Claim theorems: joining -/

/-- C2: the left outer join of the record set onto the agency mapping
generated from its own distinct agency values yields exactly one output
row per input row, so the joined row count equals the input row count. -/
theorem joining_length_eq (rows : List Record) :
    (joining rows).length = rows.length := by
  have hkeys : ((agencyMapping rows).map (·.agency)).Nodup := by
    rw [agencyMapping_keys]
    exact (nodup_uniqAux _ []).1
  exact leftJoin_length _ hkeys rows

/-- C3 (counterexample): on an input whose single record has a null
agency, the self-generated mapping (built from `dropna().unique()`, so
without a null entry) matches nothing, and the join output has one
unmatched row with a null agency code. -/
theorem joining_nullAgency_unmatched :
    joining [recB] = [⟨recB, none, none⟩] ∧
      unmatchedCount (joining [recB]) = 1 ∧
      ¬ (∀ mr ∈ joining [recB], mr.agencyCode ≠ none) := by
  refine ⟨rfl, rfl, ?_⟩
  intro hall
  have hmem : (⟨recB, none, none⟩ : MergedRow) ∈ joining [recB] := by
    have h : joining [recB] = [⟨recB, none, none⟩] := rfl
    rw [h]
    exact List.mem_singleton_self _
  exact hall ⟨recB, none, none⟩ hmem rfl

/-- C3 (amended): with the mapping generated from the input's own
distinct agency values, unmatched join rows can come only from records
whose agency is null: every output row whose record has a non-null
agency gets a non-null agency code. -/
theorem joining_code_some_of_agency_some (rows : List Record) (mr : MergedRow)
    (hmr : mr ∈ joining rows) (hag : mr.left.agency.isSome = true) :
    mr.agencyCode.isSome = true := by
  unfold joining leftJoin at hmr
  rcases List.mem_flatMap.mp hmr with ⟨r, hr, hchunk⟩
  unfold joinRow at hchunk
  rcases hf : (agencyMapping rows).filter (fun m => r.agency = some m.agency)
    with - | ⟨m0, ms⟩
  · rw [hf] at hchunk
    simp only [List.mem_singleton] at hchunk
    subst hchunk
    rcases ha : r.agency with - | a
    · rw [ha] at hag
      exact absurd hag (by simp)
    · exfalso
      have hmema : a ∈ uniqueAgencies rows := by
        have hin : a ∈ rows.filterMap (·.agency) :=
          List.mem_filterMap.mpr ⟨r, hr, by rw [ha]⟩
        rcases mem_uniqAux a (rows.filterMap (·.agency)) [] hin with h | h
        · exact h
        · exact absurd h (List.not_mem_nil a)
      rcases exists_mapRow rows a hmema with ⟨m, hm, hma⟩
      have hmf : m ∈ (agencyMapping rows).filter
          (fun m' => r.agency = some m'.agency) :=
        List.mem_filter.mpr ⟨hm, by simp [ha, hma]⟩
      rw [hf] at hmf
      exact absurd hmf (List.not_mem_nil m)
  · rw [hf] at hchunk
    simp only [List.mem_map] at hchunk
    rcases hchunk with ⟨m', _, heq⟩
    rw [← heq]
    rfl

/-- C3 (witness): the amended property applied to a one-row input whose
record names agency "SF"; its joined row carries code "AG-0000". -/
theorem joining_code_some_witness :
    (MergedRow.mk recA (some "AG-0000") (some "General")).agencyCode.isSome = true :=
  joining_code_some_of_agency_some [recA]
    ⟨recA, some "AG-0000", some "General"⟩
    (by
      have h : joining [recA] = [⟨recA, some "AG-0000", some "General"⟩] := by decide
      rw [h]
      exact List.mem_singleton_self _)
    rfl

/-! ### Claim theorems: interactive search -/

lemma beq_eq_decide_char (a b : Char) : (a == b) = decide (a = b) := by
  rw [Bool.eq_iff_iff]
  simp

lemma parseSimplePattern_lit : ∀ kw : List Char,
    (∀ c ∈ kw, isReMetachar c = false) →
    parseSimplePattern kw = some (kw.map RegexAtom.lit)
  | [], _ => rfl
  | c :: cs, h => by
    have hc : isReMetachar c = false := h c (List.mem_cons_self _ _)
    have hdot : ¬ c = '.' := by
      intro hEq
      rw [hEq] at hc
      exact absurd hc (by decide)
    unfold parseSimplePattern
    rw [if_neg hdot, if_neg (by simp [hc])]
    rw [parseSimplePattern_lit cs (fun c' hc' => h c' (List.mem_cons_of_mem _ hc'))]
    rfl

lemma matchesPrefix_lit : ∀ kw s : List Char,
    matchesPrefix (kw.map RegexAtom.lit) s
      = (kw.map Char.toLower).isPrefixOf (s.map Char.toLower)
  | [], s => by cases s <;> rfl
  | _ :: _, [] => rfl
  | c :: cs, d :: ds => by
    simp only [List.map_cons, matchesPrefix, atomMatches, List.isPrefixOf,
      matchesPrefix_lit cs ds, beq_eq_decide_char]

lemma reSearch_lit (pat hay : List Char) :
    reSearch (pat.map RegexAtom.lit) hay = containsCI hay pat := by
  unfold reSearch containsCI
  rw [List.map_tails Char.toLower, List.any_map]
  congr 1
  funext t
  exact matchesPrefix_lit pat t

/-- C6 (counterexample): `str.contains` interprets the keyword as a
regular expression, so the valid one-character pattern "." — a
non-empty keyword — matches every non-null job title: on a one-row set
titled "Senior Manager" the search returns that row although the title
does not contain "." as a (case-insensitive) literal substring, so the
search does not return exactly the substring matches. -/
theorem search_regex_dot_counterexample :
    ("." : String) ≠ "" ∧
    search_by_job_title [recA] "." = some [recA] ∧
    recA.jobTitle = some "Senior Manager" ∧
    containsCI "Senior Manager".data ".".data = false :=
  ⟨by decide, by decide, rfl, by decide⟩

/-- C6 (amended): for a non-empty keyword free of regex metacharacters
the search returns exactly the rows of the loaded record set whose job
title is non-null and contains the keyword as a case-insensitive
substring, in order and with multiplicity; rows with a null job title
never match.  (A keyword with metacharacters is interpreted as a
regular expression instead, and an invalid pattern makes the caught
`re.error` yield an empty result.) -/
theorem search_by_job_title_spec (df : List Record) (keyword : String)
    (_hk : keyword ≠ "")
    (hlit : ∀ c ∈ keyword.data, isReMetachar c = false) :
    search_by_job_title df keyword = some (literalSearch df keyword) ∧
    (∀ r : Record, r ∈ literalSearch df keyword ↔
        r ∈ df ∧ ∃ t : String, r.jobTitle = some t ∧
          containsCI t.data keyword.data = true) ∧
    (∀ r : Record, r ∈ literalSearch df keyword → r.jobTitle ≠ none) := by
  have hfil : search_by_job_title df keyword = some (literalSearch df keyword) := by
    unfold search_by_job_title
    rw [parseSimplePattern_lit keyword.data hlit]
    dsimp only [Option.map]
    congr 1
    unfold literalSearch
    rw [List.filter_filter]
    congr 1
    funext r
    cases hj : r.jobTitle <;> simp [hj, reSearch_lit]
  refine ⟨hfil, ?_, ?_⟩
  · intro r
    unfold literalSearch
    rw [List.mem_filter]
    constructor
    · rintro ⟨hrdf, hpred⟩
      refine ⟨hrdf, ?_⟩
      rcases hj : r.jobTitle with - | t
      · rw [hj] at hpred
        exact absurd hpred (by simp)
      · rw [hj] at hpred
        exact ⟨t, rfl, hpred⟩
    · rintro ⟨hrdf, t, hjt, hc⟩
      refine ⟨hrdf, ?_⟩
      rw [hjt]
      exact hc
  · intro r hr hnone
    unfold literalSearch at hr
    rw [List.mem_filter] at hr
    rw [hnone] at hr
    exact absurd hr.2 (by simp)

/-- C6 (witness): searching "manager" — a metacharacter-free keyword —
over a two-row set returns the row titled "Senior Manager"
(case-insensitive match). -/
theorem search_by_job_title_spec_witness :
    recA ∈ literalSearch [recA, recB] "manager" :=
  ((search_by_job_title_spec [recA, recB] "manager" (by decide) (by decide)).2.1
      recA).mpr
    ⟨List.mem_cons_self _ _, "Senior Manager", rfl, by decide⟩

/-- C7: whenever one loop iteration reaches the display stage, a search
with zero matches never leads to the save prompt, and the save prompt is
offered only when the match count is positive. -/
theorem mainStep_zero_matches_no_save (df : List Record) (input : String)
    (found : List Record) (offered : Bool)
    (h : mainStep df input = some (StepOutcome.results found offered)) :
    (found = [] → offered = false) ∧ (offered = true → found ≠ []) := by
  simp only [mainStep] at h
  split_ifs at h
  · exact absurd h (by simp)
  · exact absurd h (by simp)
  · rcases hs : search_by_job_title df (strip input) with - | filtered
    · rw [hs] at h
      exact absurd h (by simp)
    · rw [hs] at h
      dsimp only [Option.map] at h
      injection h with h2
      cases h2
      constructor
      · intro hempty
        rw [hempty]
        rfl
      · intro htrue hempty
        rw [hempty] at htrue
        exact absurd htrue (by simp [display_results])

/-- C7 (witness): the no-save-on-zero-matches property evaluated on a
one-row set and the keyword "zzz", which matches nothing. -/
theorem mainStep_zero_matches_no_save_witness :
    (([] : List Record) = [] → (false : Bool) = false) ∧
      ((false : Bool) = true → ([] : List Record) ≠ []) :=
  mainStep_zero_matches_no_save [recA] "zzz" [] false (by decide)

/-! ### Claim theorems: missing input file -/

/-- C9 (counterexample): when the batch pipeline's input file is missing,
the `except FileNotFoundError` handler prints an error and falls
through, so the process terminates with exit code 0, not a non-zero
outcome. -/
theorem fullDataManagementMain_missing_exit_zero :
    (fullDataManagementMain false).exitCode = 0 ∧
      (fullDataManagementMain false).reportedMissingFile = true :=
  ⟨rfl, rfl⟩

/-- C9 (amended): whenever the input file is missing, both programs
report the error to the console; the interactive tool's load step
terminates the process with exit code 1, while the batch pipeline
terminates normally with exit code 0. -/
theorem missing_input_file_behavior (rows : List Record) :
    load_data false rows = LoadOutcome.exited 1 ∧
      (fullDataManagementMain false).reportedMissingFile = true ∧
      (fullDataManagementMain false).exitCode = 0 :=
  ⟨rfl, rfl, rfl⟩

end Payroll
